import Mathlib

/-!
Verification of `anti-afk.py` (keep-awake daemon).

This file gives a shallow embedding of the parts of the program that the
properties below talk about: process-name canonicalization, target
compilation, match modes, the watch loop, the shutdown/duration waits,
the mouse-jiggler loop, and the jiggler configuration clamping.

Python strings are modelled by Lean `String` viewed as its sequence of
code points (`String.data`); the helper functions `pyLower`, `pyStrip`,
`pyEndsWith`, `pyDropRight`, `pyContains`, `pyStartsWith` embed the
corresponding Python `str` methods used by the program.
-/

set_option autoImplicit false

/-- Python `str.lower()` on the sequence of code points. -/
def pyLower (s : String) : String :=
  String.mk (s.data.map Char.toLower)

/-- Python `str.strip()`: remove leading and trailing whitespace. -/
def pyStrip (s : String) : String :=
  String.mk (((s.data.dropWhile Char.isWhitespace).reverse.dropWhile
      Char.isWhitespace).reverse)

/-- Python `s.endswith(suffix)`. -/
def pyEndsWith (s suffix : String) : Bool :=
  suffix.data.isSuffixOf s.data

/-- Python `s[:-n]` (for the use site `n[:-4]`): drop the last `n` code points. -/
def pyDropRight (s : String) (n : Nat) : String :=
  String.mk (s.data.take (s.data.length - n))

/-- Python `needle in hay` on strings: substring containment. -/
def pyContains (hay needle : String) : Bool :=
  decide (needle.data <:+: hay.data)

/-- Python `s.startswith(t)`. -/
def pyStartsWith (s t : String) : Bool :=
  t.data.isPrefixOf s.data

/-- Source `canon` (anti-afk.py, lines 88-92): lowercase the stripped name and
drop a trailing `".exe"`. -/
def canon (name : String) : String :=
  let n := pyLower (pyStrip name)
  if pyEndsWith n ".exe" then pyDropRight n 4 else n

/-- Source `DEFAULT_WATCH` (anti-afk.py, lines 44-50). -/
def DEFAULT_WATCH : List String :=
  ["obs", "obs64", "audacity", "reaper",
   "ableton", "logic", "cubase",
   "fl", "fl64", "protools", "studio one",
   "filesync", "freefilesync", "realtimesync"]

/-- Source `prepare_targets` (anti-afk.py, lines 94-106), non-regex arm:
`[canon(t) for t in raw_targets if t.strip()]`.  The `mode == "regex"` arm
returns compiled patterns (a different element type) and is embedded
separately as `prepare_targets_regex`. -/
def prepare_targets (raw_targets : List String) (_mode : String) : List String :=
  (raw_targets.filter (fun t => !(pyStrip t).data.isEmpty)).map canon

/-- Source `prepare_targets` (anti-afk.py, lines 94-104), `mode == "regex"` arm.
`re.compile` is external; it is embedded as an oracle `recompile` returning
`none` exactly when the pattern raises `re.error`.  An entry that fails to
compile is skipped (the source logs a warning) and iteration continues. -/
def prepare_targets_regex {Pat : Type} (recompile : String → Option Pat) :
    List String → List Pat
  | [] => []
  | t :: rest =>
    let tt := pyStrip t
    if tt.data.isEmpty then prepare_targets_regex recompile rest
    else
      match recompile tt with
      | some p => p :: prepare_targets_regex recompile rest
      | none => prepare_targets_regex recompile rest

/-- Source `any_match` (anti-afk.py, lines 108-139), non-regex arms.  The
running set is modelled as a list of canonical names; `find?` mirrors the
`for p in running` search returning the first matching process name.  The
`mode == "regex"` arm operates on compiled patterns and is embedded
separately as `any_match_regex`. -/
def any_match (targets : List String) (running : List String) (mode : String) :
    Option String :=
  if targets.isEmpty || running.isEmpty then none
  else if mode == "exact" then
    running.find? (fun p => targets.contains p)
  else if mode == "startswith" then
    running.find? (fun p => targets.any (fun t => pyStartsWith p t))
  else
    running.find? (fun p => targets.any (fun t => pyContains p t))

/-- Source `any_match` (anti-afk.py, lines 116-121), `mode == "regex"` arm,
with `pat.search` embedded as an oracle. -/
def any_match_regex {Pat : Type} (search : Pat → String → Bool)
    (targets : List Pat) (running : List String) : Option String :=
  if targets.isEmpty || running.isEmpty then none
  else running.find? (fun p => targets.any (fun pat => search pat p))

/-- Source `list_process_names` (anti-afk.py, lines 380-397), Windows arm:
each enumerated image name is canonicalized and inserted into a set
(modelled as a deduplicated list). -/
def list_process_names (rows : List String) : List String :=
  (rows.map canon).dedup

/-- Source `watch_and_keep_awake` (anti-afk.py, lines 400-405): an empty
supplied watch list falls back to `DEFAULT_WATCH`
(`targets if targets else DEFAULT_WATCH`). -/
def effectiveWatch (targets : List String) : List String :=
  if targets.isEmpty then DEFAULT_WATCH else targets

/-- Observable wake-inhibitor lifecycle events of the watch loop:
`acquire` is `StayAwake.__enter__`, `release` is `StayAwake.__exit__`. -/
inductive WakeEv
  | acquire
  | release
deriving DecidableEq

/-- Hit test of one poll tick: `any_match(prepared, running, match_mode)`
produced a process name. -/
def hitB (prepared : List String) (mode : String) (running : List String) : Bool :=
  (any_match prepared running mode).isSome

/-- Source `watch_and_keep_awake` loop body (anti-afk.py, lines 409-437),
driven by the per-tick process snapshots `snaps` (the values that
`list_process_names()` returns on successive ticks, until `SHUTDOWN` ends the
loop).  State `active` starts `False`; on `hit and not active` the loop
acquires a `StayAwake` session, on `not hit and active` it releases it,
otherwise the tick is a no-op (`none`).  Returns the per-tick event list and
the final `active` flag. -/
def watchRun (prepared : List String) (mode : String) :
    Bool → List (List String) → List (Option WakeEv) × Bool
  | active, [] => ([], active)
  | active, running :: rest =>
    if hitB prepared mode running && !active then
      let r := watchRun prepared mode true rest
      (some WakeEv.acquire :: r.1, r.2)
    else if !(hitB prepared mode running) && active then
      let r := watchRun prepared mode false rest
      (some WakeEv.release :: r.1, r.2)
    else
      let r := watchRun prepared mode active rest
      (none :: r.1, r.2)

/-- Source `watch_and_keep_awake` (anti-afk.py, lines 400-443) including its
`finally` block: after the loop ends (shutdown observed), a still-held keeper
is released (`if keeper: keeper.__exit__(...)`). -/
def watch_and_keep_awake_events (targets : List String) (mode : String)
    (snaps : List (List String)) : List (Option WakeEv) :=
  let prepared := prepare_targets (effectiveWatch targets) mode
  let r := watchRun prepared mode false snaps
  r.1 ++ (if r.2 then [some WakeEv.release] else [])

/-- Number of occurrences of lifecycle event `e` in a per-tick event trace
(no-op ticks are skipped). -/
def countEv (e : WakeEv) : List (Option WakeEv) → Nat
  | [] => 0
  | some x :: r => (if x = e then 1 else 0) + countEv e r
  | none :: r => countEv e r

/-- Strict alternation of lifecycle events in a trace: reading past the no-op
ticks, when `b = false` (no session open) the next event must be `acquire`,
when `b = true` (a session open) it must be `release`. -/
def altFrom : Bool → List (Option WakeEv) → Bool
  | _, [] => true
  | b, none :: r => altFrom b r
  | false, some WakeEv.acquire :: r => altFrom true r
  | true, some WakeEv.release :: r => altFrom false r
  | _, _ :: _ => false

/-- Modelled from the spec (section 5, interruptible sleeps) and the Python
standard library: `threading.Event.wait(timeout)` returns at the earlier of
the timeout and the moment the event is set (`shutdownAt`, in seconds from
the call). -/
def eventWait (timeout : Nat) (shutdownAt : Option Nat) : Nat :=
  match shutdownAt with
  | some t => min timeout t
  | none => timeout

/-- Source `keep_awake_for` (anti-afk.py, lines 445-458): the body executes
`SHUTDOWN.wait(max(0, int(duration)))` and the `with` block releases the
`StayAwake` session as soon as the wait returns; this is the release time in
seconds from entry. -/
def keep_awake_for_releaseTime (duration : Int) (shutdownAt : Option Nat) : Nat :=
  eventWait (max 0 duration).toNat shutdownAt

/-- Source `keep_awake_always` (anti-afk.py, lines 460-474) wait loop:
`while not SHUTDOWN.is_set(): SHUTDOWN.wait(3600)`, with the shutdown signal
delivered at `shutdownAt` seconds and `clock` the current time.  The flag is
set once the clock reaches `shutdownAt`, so each loop check exits then;
otherwise the hourly `wait` returns after
`eventWait 3600 (some (shutdownAt - clock))` seconds (the signal is
`shutdownAt - clock` seconds away).  Returns the clock value at loop exit,
which is when the `with` block releases the `StayAwake` session. -/
def keep_awake_always_loop (shutdownAt : Nat) (clock : Nat) : Nat :=
  if _h : shutdownAt ≤ clock then clock
  else keep_awake_always_loop shutdownAt
    (clock + eventWait 3600 (some (shutdownAt - clock)))
termination_by shutdownAt - clock
decreasing_by simp only [eventWait]; omega

/-- Source `keep_awake_always` (anti-afk.py, lines 460-474): the release
time, in seconds from entry, when the shutdown signal arrives at
`shutdownAt` seconds (the loop starts with the clock at 0). -/
def keep_awake_always_releaseTime (shutdownAt : Nat) : Nat :=
  keep_awake_always_loop shutdownAt 0

/-- Per-tick outcome of the fallible watch loop: `quiet` is a no-op tick,
`acq` a successful `StayAwake.__enter__`, `acqFail` an `__enter__` that
raised, `rel` a release. -/
inductive TickEv
  | quiet
  | acq
  | acqFail
  | rel
deriving DecidableEq

/-- Source `watch_and_keep_awake` loop (anti-afk.py, lines 409-437) with a
fallible acquire step: `acqOk k` tells whether `StayAwake.__enter__` succeeds
when attempted on tick `k` (anti-afk.py, lines 293-301: on Windows it raises
`OSError` when the initial `SetThreadExecutionState` reports failure; on
Linux it raises `EnvironmentError` when no inhibitor facility exists).  The
`try` around the loop catches only `KeyboardInterrupt`, so a raising
`__enter__` ends the loop at that tick: the remaining snapshots are never
observed.  Returns the per-tick events, the final `active` flag, and whether
the loop ended by propagating the acquire exception. -/
def watchRunF (prepared : List String) (mode : String) (acqOk : Nat → Bool) :
    Bool → Nat → List (List String) → List TickEv × Bool × Bool
  | active, _, [] => ([], active, false)
  | active, k, running :: rest =>
    if hitB prepared mode running && !active then
      if acqOk k then
        let r := watchRunF prepared mode acqOk true (k + 1) rest
        (TickEv.acq :: r.1, r.2)
      else
        ([TickEv.acqFail], active, true)
    else if !(hitB prepared mode running) && active then
      let r := watchRunF prepared mode acqOk false (k + 1) rest
      (TickEv.rel :: r.1, r.2)
    else
      let r := watchRunF prepared mode acqOk active (k + 1) rest
      (TickEv.quiet :: r.1, r.2)

/-- Source `_WinMouseJiggler._run` (anti-afk.py, lines 188-230), one loop
iteration per fuel unit until the stop event ends the loop.  `idle i` is the
value `_get_idle_seconds()` returns on iteration `i` (whole seconds);
`threshold` is `self.idle_threshold`.  A below-threshold reading skips the
emission and re-checks after `self._stop.wait(1.0)`; otherwise one jiggle
(the `move(+px); move(-px)` pair) is emitted and the loop waits
`self._stop.wait(self.interval)`.  Returns the emission times (seconds from
start) and the final clock. -/
def jigglerRun (interval : Nat) (threshold : Option Nat) (idle : Nat → Nat) :
    Nat → Nat → Nat → List Nat × Nat
  | 0, _, t => ([], t)
  | Nat.succ n, i, t =>
    match threshold with
    | some T =>
      if idle i < T then
        jigglerRun interval threshold idle n (i + 1) (t + 1)
      else
        let r := jigglerRun interval threshold idle n (i + 1) (t + interval)
        (t :: r.1, r.2)
    | none =>
      let r := jigglerRun interval threshold idle n (i + 1) (t + interval)
      (t :: r.1, r.2)

/-- Configuration state of source `_WinMouseJiggler` (fields set by
`__init__`). -/
structure WinMouseJiggler where
  interval : Int
  pixels : Int
  idle_threshold : Option Int
deriving DecidableEq

/-- Source `_WinMouseJiggler.__init__` (anti-afk.py, lines 167-171):
`self.interval = max(1, int(interval_sec))`,
`self.pixels = max(1, int(pixels))`,
`self.idle_threshold = None if idle_threshold_sec is None else
max(0, int(idle_threshold_sec))`. -/
def WinMouseJiggler.init (interval_sec : Int) (pixels : Int)
    (idle_threshold_sec : Option Int) : WinMouseJiggler :=
  ⟨max 1 interval_sec, max 1 pixels, idle_threshold_sec.map (fun x => max 0 x)⟩


/-! ## Character and canonicalization lemmas -/

theorem charToLower_eq (c : Char) :
    Char.toLower c =
      if c.toNat ≥ 65 ∧ c.toNat ≤ 90 then Char.ofNat (c.toNat + 32) else c := rfl

theorem toNat_ofNat_of_valid {n : Nat} (h : n.isValidChar) :
    (Char.ofNat n).toNat = n := by
  simp [Char.ofNat, h, Char.ofNatAux, Char.toNat, UInt32.toNat]

theorem charToLower_idem (c : Char) :
    Char.toLower (Char.toLower c) = Char.toLower c := by
  by_cases h : c.toNat ≥ 65 ∧ c.toNat ≤ 90
  · have h1 : Char.toLower c = Char.ofNat (c.toNat + 32) := by
      rw [charToLower_eq, if_pos h]
    have hv : (c.toNat + 32).isValidChar := Or.inl (by omega)
    have h2 : (Char.toLower c).toNat = c.toNat + 32 := by
      rw [h1, toNat_ofNat_of_valid hv]
    rw [charToLower_eq (Char.toLower c), h2, if_neg (by omega)]
  · have h1 : Char.toLower c = c := by rw [charToLower_eq, if_neg h]
    rw [h1]
    exact h1

theorem mapToLower_idem (l : List Char) :
    (l.map Char.toLower).map Char.toLower = l.map Char.toLower := by
  rw [List.map_map]
  exact List.map_congr_left (fun a _ => charToLower_idem a)

theorem pyLower_idem (s : String) : pyLower (pyLower s) = pyLower s :=
  congrArg String.mk (mapToLower_idem s.data)

theorem pyLower_pyDropRight (s : String) (n : Nat) :
    pyLower (pyDropRight (pyLower s) n) = pyDropRight (pyLower s) n := by
  show String.mk (((s.data.map Char.toLower).take
      ((s.data.map Char.toLower).length - n)).map Char.toLower) = _
  rw [List.map_take, mapToLower_idem]
  rfl

theorem canon_eq (name : String) :
    canon name =
      if pyEndsWith (pyLower (pyStrip name)) ".exe"
      then pyDropRight (pyLower (pyStrip name)) 4
      else pyLower (pyStrip name) := rfl

theorem canon_pyLower (x : String) : pyLower (canon x) = canon x := by
  rw [canon_eq x]
  by_cases h : pyEndsWith (pyLower (pyStrip x)) ".exe" = true
  · rw [if_pos h]
    exact pyLower_pyDropRight (pyStrip x) 4
  · rw [if_neg h]
    exact pyLower_idem (pyStrip x)

/-- C6 counterexample: `canon` is not idempotent on every input.  For
`"a.exe.exe"` the first application strips one `".exe"` suffix, leaving
`"a.exe"`, and a second application strips again, giving `"a"`. -/
theorem canon_not_idempotent_cex :
    canon (canon "a.exe.exe") ≠ canon "a.exe.exe" := by decide

/-- C6 (amended): canonicalization is idempotent on every input whose
canonical form carries no leading or trailing whitespace and does not itself
end in `".exe"` (a second application strips a further suffix otherwise,
e.g. for `"a.exe.exe"`); and `canon "OBS64.EXE" = canon "obs64"`. -/
theorem canon_idempotence_amended :
    (∀ x : String,
        pyStrip (canon x) = canon x →
        pyEndsWith (canon x) ".exe" = false →
        canon (canon x) = canon x)
    ∧ canon "OBS64.EXE" = canon "obs64" := by
  refine ⟨fun x h1 h2 => ?_, by decide⟩
  rw [canon_eq (canon x), h1, canon_pyLower x, h2]
  simp

/-- Witness for C6 (amended) at the concrete input `"Obs64.EXE"`. -/
theorem canon_idempotence_amended_witness :
    pyStrip (canon "Obs64.EXE") = canon "Obs64.EXE"
    ∧ pyEndsWith (canon "Obs64.EXE") ".exe" = false
    ∧ canon (canon "Obs64.EXE") = canon "Obs64.EXE" :=
  ⟨by decide, by decide,
    canon_idempotence_amended.1 "Obs64.EXE" (by decide) (by decide)⟩

/-! ## Watch loop lemmas -/

theorem watchRun_snd_cons (prepared : List String) (mode : String)
    (running : List String) (rest : List (List String)) (b : Bool) :
    (watchRun prepared mode b (running :: rest)).2
      = (watchRun prepared mode (hitB prepared mode running) rest).2 := by
  cases b <;> cases hh : hitB prepared mode running <;> simp [watchRun, hh]

theorem watchRun_final (prepared : List String) (mode : String)
    (snaps : List (List String)) :
    ∀ b : Bool, (watchRun prepared mode b snaps).2
      = (snaps.getLast?.map (hitB prepared mode)).getD b := by
  induction snaps with
  | nil => intro b; simp [watchRun]
  | cons running rest ih =>
    intro b
    rw [watchRun_snd_cons, ih (hitB prepared mode running)]
    cases rest with
    | nil => simp
    | cons s rest2 =>
      rw [List.getLast?_cons_cons]
      obtain ⟨z, hz⟩ := Option.isSome_iff_exists.mp
        (List.getLast?_isSome.mpr (List.cons_ne_nil s rest2))
      rw [hz]
      simp

theorem watchRun_altFrom (prepared : List String) (mode : String)
    (snaps : List (List String)) :
    ∀ b : Bool, altFrom b (watchRun prepared mode b snaps).1 = true := by
  induction snaps with
  | nil => intro b; simp [watchRun, altFrom]
  | cons running rest ih =>
    intro b
    cases b <;> cases hh : hitB prepared mode running <;>
      simp [watchRun, hh, altFrom, ih]

theorem watchRun_counts (prepared : List String) (mode : String)
    (snaps : List (List String)) :
    ∀ b : Bool,
      countEv WakeEv.acquire (watchRun prepared mode b snaps).1
          + (if b then 1 else 0)
        = countEv WakeEv.release (watchRun prepared mode b snaps).1
          + (if (watchRun prepared mode b snaps).2 then 1 else 0) := by
  induction snaps with
  | nil => intro b; simp [watchRun, countEv]
  | cons running rest ih =>
    intro b
    cases b with
    | false =>
      cases hh : hitB prepared mode running with
      | false =>
        have h2 := ih false
        simp only [watchRun, hh] at h2 ⊢
        simp only [countEv, Bool.false_and, Bool.and_false, Bool.not_false,
          Bool.true_and, if_neg, ite_false, Bool.false_eq_true] at h2 ⊢
        cases hfin : (watchRun prepared mode false rest).2 <;>
          simp [hfin, countEv] at h2 ⊢ <;> omega
      | true =>
        have h2 := ih true
        simp only [watchRun, hh] at h2 ⊢
        cases hfin : (watchRun prepared mode true rest).2 <;>
          simp [hfin, countEv] at h2 ⊢ <;> omega
    | true =>
      cases hh : hitB prepared mode running with
      | false =>
        have h2 := ih false
        simp only [watchRun, hh] at h2 ⊢
        cases hfin : (watchRun prepared mode false rest).2 <;>
          simp [hfin, countEv] at h2 ⊢ <;> omega
      | true =>
        have h2 := ih true
        simp only [watchRun, hh] at h2 ⊢
        cases hfin : (watchRun prepared mode true rest).2 <;>
          simp [hfin, countEv] at h2 ⊢ <;> omega

theorem countEv_append (e : WakeEv) (l₁ l₂ : List (Option WakeEv)) :
    countEv e (l₁ ++ l₂) = countEv e l₁ + countEv e l₂ := by
  induction l₁ with
  | nil => simp [countEv]
  | cons x r ih =>
    cases x with
    | none => simp [countEv, ih]
    | some e2 =>
      simp [countEv, ih]
      omega

theorem altFrom_prefix_counts (evs : List (Option WakeEv)) :
    ∀ (b : Bool) (pfx : List (Option WakeEv)),
      altFrom b evs = true → pfx <+: evs →
      countEv WakeEv.release pfx
          ≤ countEv WakeEv.acquire pfx + (if b then 1 else 0)
      ∧ countEv WakeEv.acquire pfx + (if b then 1 else 0)
          ≤ countEv WakeEv.release pfx + 1 := by
  induction evs with
  | nil =>
    intro b pfx _ hp
    rw [List.prefix_nil.mp hp]
    cases b <;> simp [countEv]
  | cons x evs2 ih =>
    intro b pfx halt hp
    cases pfx with
    | nil => cases b <;> simp [countEv]
    | cons y pfx2 =>
      obtain ⟨rfl, hp2⟩ := List.cons_prefix_cons.mp hp
      cases y with
      | none =>
        have h2 := ih b pfx2 (by simpa [altFrom] using halt) hp2
        simpa [countEv] using h2
      | some e =>
        cases e with
        | acquire =>
          cases b with
          | false =>
            have h2 := ih true pfx2 (by simpa [altFrom] using halt) hp2
            simp [countEv] at h2 ⊢
            omega
          | true => simp [altFrom] at halt
        | release =>
          cases b with
          | true =>
            have h2 := ih false pfx2 (by simpa [altFrom] using halt) hp2
            simp [countEv] at h2 ⊢
            omega
          | false => simp [altFrom] at halt

theorem getLast?_cons_of_getLast? {α : Type} {l : List α} {x a : α}
    (h : l.getLast? = some x) : (a :: l).getLast? = some x := by
  cases l with
  | nil => simp at h
  | cons b l2 =>
    rw [List.getLast?_cons_cons]
    exact h

theorem watchRunF_crash (prepared : List String) (mode : String)
    (acqOk : Nat → Bool) (snaps : List (List String)) :
    ∀ (b : Bool) (k : Nat),
      (watchRunF prepared mode acqOk b k snaps).2.2 = true →
      (watchRunF prepared mode acqOk b k snaps).2.1 = false
      ∧ (watchRunF prepared mode acqOk b k snaps).1.getLast?
          = some TickEv.acqFail := by
  induction snaps with
  | nil => intro b k h; simp [watchRunF] at h
  | cons running rest ih =>
    intro b k h
    cases b with
    | false =>
      cases hh : hitB prepared mode running with
      | false =>
        simp only [watchRunF, hh] at h ⊢
        simp only [Bool.false_and, Bool.not_false, Bool.true_and, if_neg,
          Bool.false_eq_true, ite_false] at h ⊢
        obtain ⟨h1, h2⟩ := ih false (k + 1) h
        exact ⟨h1, getLast?_cons_of_getLast? h2⟩
      | true =>
        cases hk : acqOk k with
        | false =>
          simp only [watchRunF, hh, hk] at h ⊢
          simp
        | true =>
          simp only [watchRunF, hh, hk] at h ⊢
          simp only [Bool.true_and, Bool.not_false, if_pos, ite_true] at h ⊢
          obtain ⟨h1, h2⟩ := ih true (k + 1) h
          exact ⟨h1, getLast?_cons_of_getLast? h2⟩
    | true =>
      cases hh : hitB prepared mode running with
      | false =>
        simp only [watchRunF, hh] at h ⊢
        simp only [Bool.false_and, Bool.not_false, Bool.true_and, if_neg,
          Bool.false_eq_true, ite_false, ite_true] at h ⊢
        obtain ⟨h1, h2⟩ := ih false (k + 1) h
        exact ⟨h1, getLast?_cons_of_getLast? h2⟩
      | true =>
        simp only [watchRunF, hh] at h ⊢
        simp only [Bool.true_and, Bool.not_true, Bool.and_false,
          Bool.false_eq_true, ite_false] at h ⊢
        obtain ⟨h1, h2⟩ := ih true (k + 1) h
        exact ⟨h1, getLast?_cons_of_getLast? h2⟩

theorem watchRunF_no_crash (prepared : List String) (mode : String)
    (acqOk : Nat → Bool) (hall : ∀ j, acqOk j = true)
    (snaps : List (List String)) :
    ∀ (b : Bool) (k : Nat),
      (watchRunF prepared mode acqOk b k snaps).2.2 = false := by
  induction snaps with
  | nil => intro b k; simp [watchRunF]
  | cons running rest ih =>
    intro b k
    cases b <;> cases hh : hitB prepared mode running <;>
      simp [watchRunF, hh, hall k, ih]

/-! ## Jiggler lemmas -/

theorem jigglerRun_skip_all (interval T : Nat) (idle : Nat → Nat)
    (hidle : ∀ i, idle i < T) :
    ∀ (n i t : Nat), jigglerRun interval (some T) idle n i t = ([], t + n) := by
  intro n
  induction n with
  | zero => intro i t; simp [jigglerRun]
  | succ m ih =>
    intro i t
    have hstep : jigglerRun interval (some T) idle (m + 1) i t
        = jigglerRun interval (some T) idle m (i + 1) (t + 1) := by
      simp [jigglerRun, hidle i]
    rw [hstep, ih (i + 1) (t + 1)]
    simp only [Prod.mk.injEq, true_and]
    omega

theorem jigglerRun_emit_all (interval T : Nat) (idle : Nat → Nat)
    (hidle : ∀ i, T ≤ idle i) :
    ∀ (n i t : Nat), jigglerRun interval (some T) idle n i t
      = ((List.range n).map (fun k => t + k * interval), t + n * interval) := by
  intro n
  induction n with
  | zero => intro i t; simp [jigglerRun]
  | succ m ih =>
    intro i t
    have hnot : ¬ idle i < T := by have := hidle i; omega
    have hstep : jigglerRun interval (some T) idle (m + 1) i t
        = (t :: (jigglerRun interval (some T) idle m (i + 1) (t + interval)).1,
           (jigglerRun interval (some T) idle m (i + 1) (t + interval)).2) := by
      simp [jigglerRun, hnot]
    rw [hstep, ih (i + 1) (t + interval)]
    simp only [Prod.mk.injEq]
    constructor
    · rw [List.range_succ_eq_map, List.map_cons, List.map_map]
      simp only [Nat.zero_mul, Nat.add_zero]
      congr 1
      apply List.map_congr_left
      intro a _
      simp only [Function.comp_apply, Nat.succ_eq_add_one]
      ring
    · ring

theorem keep_awake_always_loop_eq (shutdownAt clock : Nat) :
    keep_awake_always_loop shutdownAt clock = max clock shutdownAt := by
  rw [keep_awake_always_loop]
  by_cases h : shutdownAt ≤ clock
  · rw [dif_pos h]
    omega
  · rw [dif_neg h, keep_awake_always_loop_eq shutdownAt
      (clock + eventWait 3600 (some (shutdownAt - clock)))]
    simp only [eventWait]
    omega
termination_by shutdownAt - clock
decreasing_by simp only [eventWait]; omega

/-! ## Claim theorems -/

/-- C1: WatchLoop state invariant, over every sequence of snapshot results:
starting `Inactive`, after the run the session is held iff the most recent
snapshot was a hit (`false` for the empty run); acquire and release strictly
alternate starting with acquire (so a second acquire never happens while a
session is open); at every prefix of the event trace the acquire and release
counts differ by at most one (at most one session open at any instant); and
the final counts differ exactly by the held indicator. -/
theorem watchLoop_state_invariant (prepared : List String) (mode : String)
    (snaps : List (List String)) :
    (watchRun prepared mode false snaps).2
        = (snaps.getLast?.map (hitB prepared mode)).getD false
    ∧ altFrom false (watchRun prepared mode false snaps).1 = true
    ∧ (∀ pfx, pfx <+: (watchRun prepared mode false snaps).1 →
        countEv WakeEv.release pfx ≤ countEv WakeEv.acquire pfx
        ∧ countEv WakeEv.acquire pfx ≤ countEv WakeEv.release pfx + 1)
    ∧ countEv WakeEv.acquire (watchRun prepared mode false snaps).1
        = countEv WakeEv.release (watchRun prepared mode false snaps).1
          + (if (watchRun prepared mode false snaps).2 then 1 else 0) := by
  refine ⟨watchRun_final prepared mode snaps false,
    watchRun_altFrom prepared mode snaps false,
    fun pfx hp => ?_, ?_⟩
  · have h := altFrom_prefix_counts (watchRun prepared mode false snaps).1
      false pfx (watchRun_altFrom prepared mode snaps false) hp
    simpa using h
  · have h := watchRun_counts prepared mode snaps false
    simpa using h

/-- Witness for C1: the invariant applied to the single-hit run
`[["obs"]]` with substring target `"obs"`, prefix instantiated with the
whole event trace. -/
theorem watchLoop_state_invariant_witness :
    countEv WakeEv.release (watchRun ["obs"] "substr" false [["obs"], []]).1
        ≤ countEv WakeEv.acquire (watchRun ["obs"] "substr" false [["obs"], []]).1
    ∧ countEv WakeEv.acquire (watchRun ["obs"] "substr" false [["obs"], []]).1
        ≤ countEv WakeEv.release (watchRun ["obs"] "substr" false [["obs"], []]).1
          + 1 :=
  (watchLoop_state_invariant ["obs"] "substr" [["obs"], []]).2.2.1 _
    List.prefix_rfl

/-- C2: WatchLoop edge semantics on the concrete 4-tick trace with substring
target list `["obs"]` and snapshots `[{}, {"obs"}, {"obs"}, {}]`: exactly one
acquire, on tick 2 (Inactive-to-Active edge), exactly one release, on tick 4
(Active-to-Inactive edge), and no events on the no-op ticks 1 and 3. -/
theorem watchLoop_edge_trace :
    watchRun (prepare_targets ["obs"] "substr") "substr" false
        [[], ["obs"], ["obs"], []]
      = ([none, some WakeEv.acquire, none, some WakeEv.release], false) := by
  decide

/-- C3: shutdown finalization in every mode: in WatchLoop the `finally`
block releases a
still-held session, so over every run the full event trace (loop plus
finalizer) has equal acquire and release counts; in DurationMode with
`durationSec = 5` and a shutdown signal delivered at t = 2s, the
interruptible wait ends and release occurs at t = 2s rather than t = 5s;
and in AlwaysOnMode a shutdown signal delivered at any time t interrupts
the hourly wait loop and release occurs exactly at t, before
`keep_awake_always` returns. -/
theorem shutdown_finalization_release :
    (∀ (targets : List String) (mode : String) (snaps : List (List String)),
        countEv WakeEv.acquire (watch_and_keep_awake_events targets mode snaps)
          = countEv WakeEv.release (watch_and_keep_awake_events targets mode snaps))
    ∧ keep_awake_for_releaseTime 5 (some 2) = 2
    ∧ keep_awake_for_releaseTime 5 (some 2) ≠ 5
    ∧ (∀ t : Nat, keep_awake_always_releaseTime t = t) := by
  refine ⟨fun targets mode snaps => ?_, by decide, by decide, fun t => ?_⟩
  · have h := watchRun_counts (prepare_targets (effectiveWatch targets) mode)
      mode snaps false
    simp only [watch_and_keep_awake_events, countEv_append]
    cases hfin : (watchRun (prepare_targets (effectiveWatch targets) mode)
        mode false snaps).2 <;>
      (simp [hfin, countEv] at h ⊢; omega)
  · rw [keep_awake_always_releaseTime, keep_awake_always_loop_eq]
    omega

/-- C4 counterexample: with substring target `"obs"` matched on every tick
and every acquire attempt failing, the loop observes only the first of three
snapshots and ends with the crash flag set: the exception raised by
`StayAwake.__enter__` propagates out of the loop (its `try` catches only
`KeyboardInterrupt`), so there is no retry on the next poll tick and the
loop does not continue. -/
theorem watchLoop_acquire_failure_cex :
    watchRunF ["obs"] "substr" (fun _ => false) false 0
        [["obs"], ["obs"], ["obs"]]
      = ([TickEv.acqFail], false, true) := by
  decide

/-- C4 (amended): an acquire failure is fatal to the whole WatchLoop, not
only to that attempt: whenever a run ends with the crash flag set, no
session is recorded as held (`active` is still `false`) and the failing
tick is the last one processed (the trace ends with `acqFail`; the
remaining snapshots are never observed); when every acquire attempt
succeeds the loop never crashes. -/
theorem watchLoop_acquire_failure_aborts (prepared : List String)
    (mode : String) (acqOk : Nat → Bool) (snaps : List (List String)) :
    ((watchRunF prepared mode acqOk false 0 snaps).2.2 = true →
      (watchRunF prepared mode acqOk false 0 snaps).2.1 = false
      ∧ (watchRunF prepared mode acqOk false 0 snaps).1.getLast?
          = some TickEv.acqFail)
    ∧ ((∀ j, acqOk j = true) →
      (watchRunF prepared mode acqOk false 0 snaps).2.2 = false) :=
  ⟨watchRunF_crash prepared mode acqOk snaps false 0,
   fun hall => watchRunF_no_crash prepared mode acqOk hall snaps false 0⟩

/-- Witness for C4 (amended) on concrete two-tick runs: one with every
acquire failing, one with every acquire succeeding. -/
theorem watchLoop_acquire_failure_aborts_witness :
    ((watchRunF ["obs"] "substr" (fun _ => false) false 0
        [["obs"], ["obs"]]).2.1 = false
      ∧ (watchRunF ["obs"] "substr" (fun _ => false) false 0
          [["obs"], ["obs"]]).1.getLast? = some TickEv.acqFail)
    ∧ (watchRunF ["obs"] "substr" (fun _ => true) false 0
        [["obs"], ["obs"]]).2.2 = false :=
  ⟨(watchLoop_acquire_failure_aborts ["obs"] "substr" (fun _ => false)
      [["obs"], ["obs"]]).1 (by decide),
   (watchLoop_acquire_failure_aborts ["obs"] "substr" (fun _ => true)
      [["obs"], ["obs"]]).2 (fun _ => rfl)⟩

/-- C5: match-mode semantics: for every canonical process name `p` in the
running set and every non-empty canonical target `t` in the target list,
if `t` is a substring of `p` then Substring-mode matching reports a match;
and Exact-mode matching reports a name `p` only if `p` equals some target
exactly. -/
theorem any_match_mode_semantics :
    (∀ (targets running : List String) (p t : String),
        p ∈ running → t ∈ targets → t ≠ "" → t.data <:+: p.data →
        (any_match targets running "substr").isSome = true)
    ∧ (∀ (targets running : List String) (p : String),
        any_match targets running "exact" = some p → p ∈ targets) := by
  constructor
  · intro targets running p t hp ht _hne hsub
    have hT : targets.isEmpty = false := by
      simp only [List.isEmpty_eq_false]
      exact List.ne_nil_of_mem ht
    have hR : running.isEmpty = false := by
      simp only [List.isEmpty_eq_false]
      exact List.ne_nil_of_mem hp
    simp only [any_match, hT, hR, Bool.or_self, Bool.false_eq_true, if_false]
    rw [if_neg (by decide), if_neg (by decide)]
    exact List.find?_isSome.mpr
      ⟨p, hp, List.any_eq_true.mpr ⟨t, ht, decide_eq_true hsub⟩⟩
  · intro targets running p h
    unfold any_match at h
    by_cases hb : (targets.isEmpty || running.isEmpty) = true
    · rw [if_pos hb] at h
      exact absurd h (by simp)
    · rw [if_neg hb, if_pos (by decide : (("exact" : String) == "exact") = true)]
        at h
      have hc := List.find?_some h
      simpa using hc

/-- Witness for C5: `"filesync"` as a substring of `"freefilesync"` produces
a Substring-mode match, and an Exact-mode result is a member of the target
list. -/
theorem any_match_mode_semantics_witness :
    (any_match ["filesync"] ["freefilesync"] "substr").isSome = true
    ∧ "obs" ∈ ["obs"] :=
  ⟨any_match_mode_semantics.1 ["filesync"] ["freefilesync"]
      "freefilesync" "filesync" (by decide) (by decide) (by decide) (by decide),
   any_match_mode_semantics.2 ["obs"] ["obs"] "obs" (by decide)⟩

/-- C7: default-list fallback: an empty watch list compiles the built-in
`DEFAULT_WATCH` instead; the snapshot entry `"freefilesync.exe"`
canonicalizes to `"freefilesync"` and hits the default list's
`"filesync"` entry under Substring mode. -/
theorem default_watch_fallback :
    effectiveWatch [] = DEFAULT_WATCH
    ∧ canon "freefilesync.exe" = "freefilesync"
    ∧ "filesync" ∈ prepare_targets (effectiveWatch []) "substr"
    ∧ any_match (prepare_targets (effectiveWatch []) "substr")
        (list_process_names ["freefilesync.exe"]) "substr"
      = some "freefilesync" := by
  refine ⟨by decide, by decide, by decide, by decide⟩

/-- C8: invalid-regex tolerance: regex-mode target compilation processes
each entry independently — it equals the `filterMap` of the compile oracle
over the stripped non-empty entries — and dropping any entry whose pattern
fails to compile leaves the compilation of the other entries of the same
list unchanged (one bad pattern never aborts compilation or discards the
valid patterns). -/
theorem regex_targets_drop_invalid :
    (∀ (Pat : Type) (recompile : String → Option Pat) (raw : List String),
        prepare_targets_regex recompile raw
          = ((raw.map pyStrip).filter
              (fun t => !t.data.isEmpty)).filterMap recompile)
    ∧ (∀ (Pat : Type) (recompile : String → Option Pat)
        (xs ys : List String) (bad : String),
        recompile (pyStrip bad) = none →
        prepare_targets_regex recompile (xs ++ bad :: ys)
          = prepare_targets_regex recompile (xs ++ ys)) := by
  constructor
  · intro Pat recompile raw
    induction raw with
    | nil => simp [prepare_targets_regex]
    | cons t rest ih =>
      by_cases he : (pyStrip t).data.isEmpty = true
      · simp [prepare_targets_regex, he, ih]
      · cases hc : recompile (pyStrip t) <;>
          simp [prepare_targets_regex, he, hc, ih]
  · intro Pat recompile xs ys bad hbad
    induction xs with
    | nil =>
      by_cases he : (pyStrip bad).data.isEmpty = true
      · simp [prepare_targets_regex, he]
      · simp [prepare_targets_regex, he, hbad]
    | cons x xs2 ih =>
      by_cases he : (pyStrip x).data.isEmpty = true
      · simp [prepare_targets_regex, he, ih]
      · cases hc : recompile (pyStrip x) <;>
          simp [prepare_targets_regex, he, hc, ih]

/-- Witness for C8: dropping the invalid pattern `"("` leaves the valid
neighbours `"a"` and `"b"` compiled as before. -/
theorem regex_targets_drop_invalid_witness :
    prepare_targets_regex
        (fun s => if s == "(" then (none : Option String) else some s)
        ["a", "(", "b"]
      = prepare_targets_regex
        (fun s => if s == "(" then (none : Option String) else some s)
        ["a", "b"] :=
  regex_targets_drop_invalid.2 String
    (fun s => if s == "(" then none else some s) ["a"] ["b"] "(" (by decide)

/-- C9: idle-gated jiggler suppression: with idle threshold `T`, an idle
source that stays strictly below `T` on every tick yields zero emissions
over the whole run (each tick takes the skip branch and re-checks after the
fixed 1-second sub-interval, so `n` ticks take `n` seconds); an idle source
at or above `T` on every tick yields one emission per tick at the
configured cadence (emission `k` at time `k * interval`). -/
theorem jiggler_idle_gating :
    ∀ (interval T n : Nat) (idle : Nat → Nat),
      ((∀ i, idle i < T) →
        jigglerRun interval (some T) idle n 0 0 = ([], n))
      ∧ ((∀ i, T ≤ idle i) →
        jigglerRun interval (some T) idle n 0 0
          = ((List.range n).map (fun k => k * interval), n * interval)) := by
  intro interval T n idle
  constructor
  · intro h
    rw [jigglerRun_skip_all interval T idle h n 0 0]
    simp
  · intro h
    rw [jigglerRun_emit_all interval T idle h n 0 0]
    simp

/-- Witness for C9: a 3-tick run with threshold 5 and interval 2, once with
a constantly-active user (idle 0, no emissions) and once with a
constantly-idle user (idle 9, emissions at 0, 2, 4). -/
theorem jiggler_idle_gating_witness :
    jigglerRun 2 (some 5) (fun _ => 0) 3 0 0 = ([], 3)
    ∧ jigglerRun 2 (some 5) (fun _ => 9) 3 0 0
      = ((List.range 3).map (fun k => k * 2), 3 * 2) :=
  ⟨(jiggler_idle_gating 2 5 3 (fun _ => 0)).1 (fun _ => by decide),
   (jiggler_idle_gating 2 5 3 (fun _ => 9)).2 (fun _ => by decide)⟩

/-- C10: jiggler configuration clamping: for all integer constructor inputs
the constructed jiggler satisfies the JigglerConfig constraints — interval
at least 1, pixel amplitude at least 1, idle threshold absent or at least
0 — because out-of-range inputs are clamped with `max`, not rejected. -/
theorem jiggler_config_clamped :
    ∀ (interval_sec pixels : Int) (idle_threshold_sec : Option Int),
      1 ≤ (WinMouseJiggler.init interval_sec pixels idle_threshold_sec).interval
      ∧ 1 ≤ (WinMouseJiggler.init interval_sec pixels idle_threshold_sec).pixels
      ∧ ∀ x ∈ (WinMouseJiggler.init interval_sec pixels
          idle_threshold_sec).idle_threshold, 0 ≤ x := by
  intro i p th
  refine ⟨le_max_left 1 i, le_max_left 1 p, fun x hx => ?_⟩
  cases th with
  | none => simp [WinMouseJiggler.init] at hx
  | some v =>
    simp [WinMouseJiggler.init] at hx
    omega

/-- Witness for C10 at the out-of-range inputs `(-5, 0, some (-3))`. -/
theorem jiggler_config_clamped_witness :
    1 ≤ (WinMouseJiggler.init (-5) 0 (some (-3))).interval
    ∧ 1 ≤ (WinMouseJiggler.init (-5) 0 (some (-3))).pixels
    ∧ 0 ≤ (0 : Int) :=
  ⟨(jiggler_config_clamped (-5) 0 (some (-3))).1,
   (jiggler_config_clamped (-5) 0 (some (-3))).2.1,
   (jiggler_config_clamped (-5) 0 (some (-3))).2.2 0
     (Option.mem_def.mpr (by decide))⟩
